import Mathlib

/-!
Verification development for the textract-proxy repository (src/main.py).

The extraction logic of the two endpoints is embedded shallowly:

* `process_receipt` (src/main.py lines 174-198): the loops over
  `ExpenseDocuments` / `SummaryFields` / `LineItemGroups` building
  `raw_fields` and `line_items`.
* `process_ocr` (src/main.py lines 214-243): the loop collecting the
  `Text` of `LINE` blocks across pages.

Python dictionaries coming off the wire are modelled structurally: every
key the code accesses is an `Option` field (a missing key is `none`).
Unguarded accesses such as `field["Type"]["Text"]` are modelled in the
`Except String` monad, where `Except.error` stands for a raised
`KeyError`.  Python `dict` values built by the code are modelled as
insertion-ordered association lists (`Dict`) with the exact Python
update semantics (overwrite in place, append new keys at the end).
-/

/-- A JSON object such as `{"Text": ...}` of which the code reads the
`Text` key: `none` models a missing key. -/
structure TextBox where
  text : Option String
deriving Repr, DecidableEq

/-- A summary or line-item expense field: a JSON object of which the code
reads the `Type` and `ValueDetection` keys (each holding a `TextBox`). -/
structure ExpenseField where
  fieldType : Option TextBox
  valueDetection : Option TextBox
deriving Repr, DecidableEq

/-- One element of `LineItems`: the code reads `LineItemExpenseFields`
with default `[]` (`item.get("LineItemExpenseFields", [])`). -/
structure LineItem where
  lineItemExpenseFields : Option (List ExpenseField)
deriving Repr, DecidableEq

/-- One element of `LineItemGroups`: the code reads `LineItems` with
default `[]`. -/
structure LineItemGroup where
  lineItems : Option (List LineItem)
deriving Repr, DecidableEq

/-- One element of `ExpenseDocuments`: the code reads `SummaryFields`
and `LineItemGroups`, each with default `[]`. -/
structure ExpenseDocument where
  summaryFields : Option (List ExpenseField)
  lineItemGroups : Option (List LineItemGroup)
deriving Repr, DecidableEq

/-- The AnalyzeExpense response: the code reads `ExpenseDocuments` with
default `[]` (`response.get("ExpenseDocuments", [])`). -/
structure ExpenseResponse where
  expenseDocuments : Option (List ExpenseDocument)
deriving Repr, DecidableEq

/-- ASCII whitespace stripped by Python `str.strip()`. -/
def isPySpace (c : Char) : Bool :=
  c == ' ' || c == '\t' || c == '\n' || c == '\r' || c == '\x0b' || c == '\x0c'

/-- Python `str.strip()` on the character list. -/
def pyStrip (cs : List Char) : List Char :=
  ((cs.dropWhile isPySpace).reverse.dropWhile isPySpace).reverse

/-- Python `s.strip()`. -/
def pyStripS (s : String) : String := String.mk (pyStrip s.data)

/-- Python `s.upper()` (ASCII range, which is all the code relies on). -/
def pyUpperS (s : String) : String := String.mk (s.data.map Char.toUpper)

/-- Python `s.lower()` (ASCII range). -/
def pyLowerS (s : String) : String := String.mk (s.data.map Char.toLower)

/-- Python `s.replace(" ", "_")`: the pattern is a single character, so
the replacement is per character. -/
def underscoreSpaces (s : String) : String :=
  String.mk (s.data.map (fun c => if c = ' ' then '_' else c))

/-- The key normalization applied to a summary-field label in
src/main.py line 180: `.strip().upper().replace(" ", "_")`. -/
def normalizeKey (s : String) : String := underscoreSpaces (pyUpperS (pyStripS s))

/-- A Python `dict` with string keys and values, as an
insertion-ordered association list whose keys are kept unique by
`dictInsert`. -/
abbrev Dict := List (String × String)

/-- Python `d[k] = v`: overwrite the existing entry in place, otherwise
append at the end. -/
def dictInsert (k v : String) : Dict → Dict
  | [] => [(k, v)]
  | p :: rest => if p.1 = k then (k, v) :: rest else p :: dictInsert k v rest

/-- Python `d.get(k)`: the value at the first entry whose key is `k`. -/
def dictGet : Dict → String → Option String
  | [], _ => none
  | p :: rest, k => if p.1 = k then some p.2 else dictGet rest k

/-- Reading the `Text` key of a present JSON object:
`{...}["Text"]` raises `KeyError` when the key is missing. -/
def getText (tb : TextBox) : Except String String :=
  match tb.text with
  | some t => Except.ok t
  | none => Except.error "KeyError"

/-- The body of the summary-field loop, src/main.py lines 179-183:
guard on the presence of `Type` and `ValueDetection`, normalize the
label, strip the value, and record the pair when both are non-empty. -/
def processSummaryField (rf : Dict) (f : ExpenseField) : Except String Dict :=
  match f.fieldType, f.valueDetection with
  | some tb, some vb =>
    match getText tb, getText vb with
    | Except.ok t, Except.ok v =>
      let name := normalizeKey t
      let value := pyStripS v
      if name ≠ "" ∧ value ≠ "" then Except.ok (dictInsert name value rf)
      else Except.ok rf
    | _, _ => Except.error "KeyError"
  | _, _ => Except.ok rf

/-- The summary-field loop, src/main.py line 178. -/
def processSummaryFields : Dict → List ExpenseField → Except String Dict
  | rf, [] => Except.ok rf
  | rf, f :: rest =>
    match processSummaryField rf f with
    | Except.ok rf2 => processSummaryFields rf2 rest
    | Except.error e => Except.error e

/-- One step of the dict comprehension of src/main.py lines 187-191:
fields lacking `Type` or `ValueDetection` are skipped, otherwise the
lowercased label is mapped to the raw value text. -/
def itemFieldStep (d : Dict) (f : ExpenseField) : Except String Dict :=
  match f.fieldType, f.valueDetection with
  | some tb, some vb =>
    match getText tb, getText vb with
    | Except.ok t, Except.ok v => Except.ok (dictInsert (pyLowerS t) v d)
    | _, _ => Except.error "KeyError"
  | _, _ => Except.ok d

/-- The dict comprehension of src/main.py lines 187-191 over the fields
of one line item. -/
def buildItemDict : Dict → List ExpenseField → Except String Dict
  | d, [] => Except.ok d
  | d, f :: rest =>
    match itemFieldStep d f with
    | Except.ok d2 => buildItemDict d2 rest
    | Except.error e => Except.error e

/-- The body of the line-item loop, src/main.py lines 186-193: build the
field dict and append it when non-empty (`if fields:`). -/
def processLineItem (acc : List Dict) (it : LineItem) : Except String (List Dict) :=
  match buildItemDict [] (it.lineItemExpenseFields.getD []) with
  | Except.ok fields =>
    if fields = [] then Except.ok acc else Except.ok (acc ++ [fields])
  | Except.error e => Except.error e

/-- The loop over `LineItems` of one group, src/main.py line 186. -/
def processLineItems : List Dict → List LineItem → Except String (List Dict)
  | acc, [] => Except.ok acc
  | acc, it :: rest =>
    match processLineItem acc it with
    | Except.ok acc2 => processLineItems acc2 rest
    | Except.error e => Except.error e

/-- The loop over `LineItemGroups`, src/main.py line 185. -/
def processGroups : List Dict → List LineItemGroup → Except String (List Dict)
  | acc, [] => Except.ok acc
  | acc, g :: rest =>
    match processLineItems acc (g.lineItems.getD []) with
    | Except.ok acc2 => processGroups acc2 rest
    | Except.error e => Except.error e

/-- The body of the document loop, src/main.py lines 177-193: the
summary fields of the document update `raw_fields`, then its groups
extend `line_items`. -/
def processDoc (st : Dict × List Dict) (d : ExpenseDocument) :
    Except String (Dict × List Dict) :=
  match processSummaryFields st.1 (d.summaryFields.getD []) with
  | Except.ok rf =>
    match processGroups st.2 (d.lineItemGroups.getD []) with
    | Except.ok li => Except.ok (rf, li)
    | Except.error e => Except.error e
  | Except.error e => Except.error e

/-- The loop over `ExpenseDocuments`, src/main.py line 177. -/
def processDocs : Dict × List Dict → List ExpenseDocument → Except String (Dict × List Dict)
  | st, [] => Except.ok st
  | st, d :: rest =>
    match processDoc st d with
    | Except.ok st2 => processDocs st2 rest
    | Except.error e => Except.error e

/-- The whole extraction of `process_receipt`, src/main.py lines
174-193: starting from an empty `raw_fields` and `line_items`. -/
def extractExpense (r : ExpenseResponse) : Except String (Dict × List Dict) :=
  processDocs ([], []) (r.expenseDocuments.getD [])

/-!
Declarative characterizations of the loops above, proved equivalent to
them (on non-raising inputs) in the theorems below.
-/

/-- Fold step inserting one `(key, value)` write into a `Dict`. -/
def insStep (d : Dict) (p : String × String) : Dict := dictInsert p.1 p.2 d

/-- The `Dict` obtained by performing a list of writes in order on an
empty dict. -/
def buildDict (ws : List (String × String)) : Dict := ws.foldl insStep []

/-- The last write for key `k` in a list of writes: later entries
override earlier ones. -/
def lastWrite : List (String × String) → String → Option String
  | [], _ => none
  | p :: rest, k =>
    match lastWrite rest k with
    | some v => some v
    | none => if p.1 = k then some p.2 else none

/-- The `raw_fields` write a summary field produces, if any: both
`Type` and `ValueDetection` present with their `Text`, and both the
normalized label and the stripped value non-empty. -/
def fieldWrite (f : ExpenseField) : Option (String × String) :=
  match f.fieldType, f.valueDetection with
  | some ⟨some t⟩, some ⟨some v⟩ =>
    if normalizeKey t ≠ "" ∧ pyStripS v ≠ "" then some (normalizeKey t, pyStripS v)
    else none
  | _, _ => none

/-- All `raw_fields` writes of one document, in field order. -/
def docWrites (d : ExpenseDocument) : List (String × String) :=
  (d.summaryFields.getD []).filterMap fieldWrite

/-- All `raw_fields` writes of a response, in processing order. -/
def summaryWrites (r : ExpenseResponse) : List (String × String) :=
  ((r.expenseDocuments.getD []).map docWrites).flatten

/-- The line-item dict entry one field produces, if any: `Type` and
`ValueDetection` present, label lowercased, value taken verbatim. -/
def itemEntry (f : ExpenseField) : Option (String × String) :=
  match f.fieldType, f.valueDetection with
  | some ⟨some t⟩, some ⟨some v⟩ => some (pyLowerS t, v)
  | _, _ => none

/-- The dict built for one line item. -/
def itemDict (it : LineItem) : Dict :=
  buildDict ((it.lineItemExpenseFields.getD []).filterMap itemEntry)

/-- The line items of one document, groups flattened in order. -/
def docItems (d : ExpenseDocument) : List LineItem :=
  ((d.lineItemGroups.getD []).map (fun g => g.lineItems.getD [])).flatten

/-- All line items of a response, in processing order, documents and
groups flattened. -/
def allItems (r : ExpenseResponse) : List LineItem :=
  ((r.expenseDocuments.getD []).map docItems).flatten

/-- The declarative `line_items` result: every item's dict, in order,
with the empty ones dropped. -/
def lineItemsSpec (r : ExpenseResponse) : List Dict :=
  ((allItems r).map itemDict).filter (fun d => !d.isEmpty)

/-- A field is well-formed when each of its present `Type` /
`ValueDetection` objects carries its `Text`. -/
def wfField (f : ExpenseField) : Bool :=
  (match f.fieldType with
   | some tb => tb.text.isSome
   | none => true) &&
  (match f.valueDetection with
   | some tb => tb.text.isSome
   | none => true)

/-- Well-formedness of a line item. -/
def wfItem (it : LineItem) : Bool := (it.lineItemExpenseFields.getD []).all wfField

/-- Well-formedness of a group. -/
def wfGroup (g : LineItemGroup) : Bool := (g.lineItems.getD []).all wfItem

/-- Well-formedness of a document. -/
def wfDoc (d : ExpenseDocument) : Bool :=
  (d.summaryFields.getD []).all wfField && (d.lineItemGroups.getD []).all wfGroup

/-- Well-formedness of a response: every present `Type` or
`ValueDetection` object anywhere in it carries its `Text` key. -/
def wfResponse (r : ExpenseResponse) : Bool := (r.expenseDocuments.getD []).all wfDoc

/-- The JSON values appearing in the endpoint's response body. -/
inductive JVal where
  | jstr : String → JVal
  | jobj : List (String × JVal) → JVal
  | jarr : List JVal → JVal
deriving Repr

/-- A `Dict` as a JSON object. -/
def dictJ (d : Dict) : JVal := JVal.jobj (d.map (fun p => (p.1, JVal.jstr p.2)))

/-- The 200-response content of `process_receipt`, src/main.py lines
195-198: `{"raw_fields": raw_fields, "line_items": line_items}` (as the
ordered list of its keyed members). -/
def receiptContent (r : ExpenseResponse) : Except String (List (String × JVal)) :=
  match extractExpense r with
  | Except.ok st =>
    Except.ok [("raw_fields", dictJ st.1), ("line_items", JVal.jarr (st.2.map dictJ))]
  | Except.error e => Except.error e

/-!  The OCR endpoint `process_ocr`, src/main.py lines 236-242. -/

/-- A Textract block as read by `process_ocr`: the code reads
`BlockType` and `Text` with `.get` (missing keys are tolerated). -/
structure OcrBlock where
  blockType : Option String
  text : Option String
deriving Repr, DecidableEq

/-- One page's `detect_document_text` response: the code reads `Blocks`
with default `[]`. -/
structure OcrResponse where
  blocks : Option (List OcrBlock)
deriving Repr, DecidableEq

/-- The block loop of src/main.py lines 236-238: append
`block.get("Text", "")` for every block whose `BlockType` is `LINE`. -/
def collectLines : List String → List OcrBlock → List String
  | acc, [] => acc
  | acc, b :: rest =>
    collectLines (if b.blockType = some "LINE" then acc ++ [b.text.getD ""] else acc) rest

/-- The page loop of src/main.py line 216 restricted to its text
extraction: fold every page's blocks into `all_lines`. -/
def ocrPages : List String → List OcrResponse → List String
  | acc, [] => acc
  | acc, resp :: rest => ocrPages (collectLines acc (resp.blocks.getD [])) rest

/-- The `text_lines` list returned by `process_ocr` over the per-page
responses, src/main.py lines 214-242. -/
def ocrTextLines (responses : List OcrResponse) : List String :=
  ocrPages [] responses

/-!  Numeric/pattern utilities, modelled from the spec (not in src/). -/

/-- Value of an ASCII digit character. -/
def digitVal (c : Char) : Nat := c.toNat - 48

/-- Decimal value of a digit run. -/
def digitsToNat (ds : List Char) : Nat := ds.foldl (fun n c => n * 10 + digitVal c) 0

/-- Modelled from the spec: src/ contains no `parse_currency`; spec
section 4.6 says to strip comma thousands-separators and currency
symbol characters.  Removes every comma and currency symbol. -/
def stripCurrency (cs : List Char) : List Char :=
  cs.filter (fun c => !(c == ',' || c == '£' || c == '$' || c == '€' || c == '¥'))

/-- Modelled from the spec: an anchored match of the pattern digits,
dot, two digits at the head of the list, returning (integer part,
cents). -/
def matchAmount (cs : List Char) : Option (Nat × Nat) :=
  let ds := cs.takeWhile Char.isDigit
  if ds.isEmpty then none
  else
    match cs.drop ds.length with
    | '.' :: d1 :: d2 :: _ =>
      if d1.isDigit && d2.isDigit then
        some (digitsToNat ds, digitVal d1 * 10 + digitVal d2)
      else none
    | _ => none

/-- Leftmost match of the two-decimal amount pattern. -/
def findAmount : List Char → Option (Nat × Nat)
  | [] => none
  | c :: rest =>
    match matchAmount (c :: rest) with
    | some m => some m
    | none => findAmount rest

/-- Modelled from the spec: `parse_currency` of section 4.6, absent from
src/.  Strips commas and currency symbols, then parses the first
substring matching digits `.` two-digits as a decimal number; `none`
when no such substring exists. -/
def parse_currency (s : String) : Option Rat :=
  (findAmount (stripCurrency s.data)).map (fun p => (p.1 : Rat) + (p.2 : Rat) / 100)

/-- Modelled from the spec: nine digits right after a `GB` prefix. -/
def gbDigits (cs : List Char) : Option (List Char) :=
  let ds := cs.take 9
  if ds.length = 9 && ds.all Char.isDigit then some ds else none

/-- Modelled from the spec: an anchored match of the VAT-number pattern
`GB` followed by exactly nine digits, case-sensitive on `GB`. -/
def matchVat : List Char → Option String
  | 'G' :: 'B' :: rest =>
    match gbDigits rest with
    | some ds => some (String.mk ('G' :: 'B' :: ds))
    | none => none
  | _ => none

/-- Leftmost VAT-number match within one text. -/
def findVat : List Char → Option String
  | [] => none
  | c :: rest =>
    match matchVat (c :: rest) with
    | some m => some m
    | none => findVat rest

/-- Modelled from the spec: the `vat_number` derivation of section 4.5,
absent from src/.  Scans the resolved value texts in order; the first
match across all fields wins, absence yields `none`. -/
def scanVatNumber : List String → Option String
  | [] => none
  | t :: rest =>
    match findVat t.data with
    | some m => some m
    | none => scanVatNumber rest

/-!  Auxiliary definitions and concrete inputs used by the theorems. -/

/-- Apply an optional write to a `Dict`. -/
def applyWrite (rf : Dict) : Option (String × String) → Dict
  | some p => dictInsert p.1 p.2 rf
  | none => rf

/-- A summary field whose label carries leading and trailing spaces. -/
def fieldSpacedLabel : ExpenseField := ⟨some ⟨some " Vendor Name "⟩, some ⟨some "ACME"⟩⟩

/-- A one-document response containing only `fieldSpacedLabel`. -/
def rSpacedLabel : ExpenseResponse := ⟨some [⟨some [fieldSpacedLabel], none⟩]⟩

/-- A response whose single summary field has a `Type` object without
its `Text` key. -/
def rMissingText : ExpenseResponse := ⟨some [⟨some [⟨some ⟨none⟩, some ⟨some "12.00"⟩⟩], none⟩]⟩

/-- A well-formed response whose first summary field lacks the `Type`
key entirely (recovered by omission) and whose second field is
complete. -/
def rSkipsField : ExpenseResponse :=
  ⟨some [⟨some [⟨none, some ⟨some "ignored"⟩⟩, ⟨some ⟨some "Total"⟩, some ⟨some "9.99"⟩⟩], none⟩]⟩

/-- A response with two summary fields normalizing to the same key
`TOTAL` with different values. -/
def rDupKeys : ExpenseResponse :=
  ⟨some [⟨some [⟨some ⟨some "Total"⟩, some ⟨some "1.00"⟩⟩,
                ⟨some ⟨some "Total"⟩, some ⟨some "2.00"⟩⟩], none⟩]⟩

/-- A response with two line-item groups: the first holds one item with
a field and one item producing an empty dict, the second holds one item
with a field. -/
def rTwoGroups : ExpenseResponse :=
  ⟨some [⟨none,
          some [⟨some [⟨some [⟨some ⟨some "Item"⟩, some ⟨some "Apple"⟩⟩]⟩, ⟨some []⟩]⟩,
                ⟨some [⟨some [⟨some ⟨some "Item"⟩, some ⟨some "Pear"⟩⟩]⟩]⟩]⟩]⟩

/-!  Dictionary lemmas. -/

/-- Lookup after a Python dict update. -/
theorem dictGet_insert (k v k2 : String) (d : Dict) :
    dictGet (dictInsert k v d) k2 = if k2 = k then some v else dictGet d k2 := by
  induction d with
  | nil =>
    simp only [dictInsert, dictGet]
    split_ifs <;> try rfl
    all_goals simp_all
  | cons p rest ih =>
    by_cases hp : p.1 = k
    · simp only [dictInsert, if_pos hp, dictGet]
      split_ifs <;> try rfl
      all_goals simp_all
    · simp only [dictInsert, if_neg hp, dictGet, ih]
      split_ifs <;> try rfl
      all_goals simp_all

/-- Lookup in a fold of writes: the last write for the key wins, the
initial dict answers only when no write touched the key. -/
theorem dictGet_foldl (ws : List (String × String)) (d : Dict) (k : String) :
    dictGet (ws.foldl insStep d) k = ((lastWrite ws k).elim (dictGet d k) some) := by
  induction ws generalizing d with
  | nil => simp [lastWrite]
  | cons p rest ih =>
    rw [List.foldl_cons, ih, lastWrite]
    cases h : lastWrite rest k with
    | some v => simp
    | none =>
      rcases eq_or_ne p.1 k with hk | hk
      · subst hk
        simp [insStep, dictGet_insert]
      · have hk2 : ¬ k = p.1 := fun hh => hk hh.symm
        simp [insStep, dictGet_insert, hk, hk2]

/-- Lookup in the dict built from a list of writes. -/
theorem dictGet_buildDict (ws : List (String × String)) (k : String) :
    dictGet (buildDict ws) k = lastWrite ws k := by
  rw [buildDict, dictGet_foldl]
  cases lastWrite ws k <;> simp [dictGet]

/-- `lastWrite` answers exactly for the keys written. -/
theorem lastWrite_isSome (ws : List (String × String)) (k : String) :
    (∃ v, lastWrite ws k = some v) ↔ ∃ p, p ∈ ws ∧ p.1 = k := by
  induction ws with
  | nil => simp [lastWrite]
  | cons p rest ih =>
    rw [lastWrite]
    cases h : lastWrite rest k with
    | some v =>
      constructor
      · intro _
        obtain ⟨q, hq, hk⟩ := ih.mp ⟨v, h⟩
        exact ⟨q, List.mem_cons_of_mem p hq, hk⟩
      · intro _; exact ⟨v, rfl⟩
    | none =>
      constructor
      · intro hv
        by_cases hk : p.1 = k
        · exact ⟨p, List.mem_cons_self p rest, hk⟩
        · simp [hk] at hv
      · rintro ⟨q, hq, hk⟩
        rcases List.mem_cons.mp hq with hq | hq
        · subst hq; simp [hk]
        · have := ih.mpr ⟨q, hq, hk⟩
          simp [h] at this

/-!  Bridge lemmas: each loop, on a run that raises no `KeyError`,
computes the corresponding declarative description. -/

/-- A non-raising summary-field step performs exactly the field's
`fieldWrite`. -/
theorem processSummaryField_ok (rf rf2 : Dict) (f : ExpenseField)
    (h : processSummaryField rf f = Except.ok rf2) :
    rf2 = applyWrite rf (fieldWrite f) := by
  obtain ⟨ft, vd⟩ := f
  cases ft with
  | none =>
    simp [processSummaryField] at h
    simp [fieldWrite, applyWrite, h]
  | some tb =>
    cases vd with
    | none =>
      simp [processSummaryField] at h
      simp [fieldWrite, applyWrite, h]
    | some vb =>
      obtain ⟨t⟩ := tb
      obtain ⟨v⟩ := vb
      cases t with
      | none => simp [processSummaryField, getText] at h
      | some t =>
        cases v with
        | none => simp [processSummaryField, getText] at h
        | some v =>
          simp only [processSummaryField, getText] at h
          by_cases hc : normalizeKey t ≠ "" ∧ pyStripS v ≠ ""
          · rw [if_pos hc] at h
            simp only [Except.ok.injEq] at h
            simp [fieldWrite, applyWrite, if_pos hc, h.symm]
          · rw [if_neg hc] at h
            simp only [Except.ok.injEq] at h
            simp [fieldWrite, applyWrite, if_neg hc, h.symm, applyWrite]

/-- A non-raising summary-field loop folds the writes of its fields, in
order, over the incoming dict. -/
theorem processSummaryFields_ok (fs : List ExpenseField) (rf out : Dict)
    (h : processSummaryFields rf fs = Except.ok out) :
    out = (fs.filterMap fieldWrite).foldl insStep rf := by
  induction fs generalizing rf with
  | nil =>
    simp [processSummaryFields] at h
    simp [h.symm]
  | cons f rest ih =>
    rw [processSummaryFields] at h
    cases hf : processSummaryField rf f with
    | error e => rw [hf] at h; exact absurd h (by simp)
    | ok rf2 =>
      rw [hf] at h
      have hw := processSummaryField_ok rf rf2 f hf
      rw [List.filterMap_cons]
      cases hfw : fieldWrite f with
      | none =>
        rw [hfw] at hw
        simp only [applyWrite] at hw
        subst hw
        exact ih rf2 h
      | some p =>
        rw [hfw] at hw
        simp only [applyWrite] at hw
        subst hw
        rw [List.foldl_cons]
        exact ih _ h

/-- A non-raising line-item field step performs exactly the field's
`itemEntry`. -/
theorem itemFieldStep_ok (d d2 : Dict) (f : ExpenseField)
    (h : itemFieldStep d f = Except.ok d2) :
    d2 = applyWrite d (itemEntry f) := by
  obtain ⟨ft, vd⟩ := f
  cases ft with
  | none =>
    simp [itemFieldStep] at h
    simp [itemEntry, applyWrite, h]
  | some tb =>
    cases vd with
    | none =>
      simp [itemFieldStep] at h
      simp [itemEntry, applyWrite, h]
    | some vb =>
      obtain ⟨t⟩ := tb
      obtain ⟨v⟩ := vb
      cases t with
      | none => simp [itemFieldStep, getText] at h
      | some t =>
        cases v with
        | none => simp [itemFieldStep, getText] at h
        | some v =>
          simp only [itemFieldStep, getText, Except.ok.injEq] at h
          simp [itemEntry, applyWrite, h.symm]

/-- A non-raising line-item dict comprehension folds the entries of its
fields over the incoming dict. -/
theorem buildItemDict_ok (fs : List ExpenseField) (d out : Dict)
    (h : buildItemDict d fs = Except.ok out) :
    out = (fs.filterMap itemEntry).foldl insStep d := by
  induction fs generalizing d with
  | nil =>
    simp [buildItemDict] at h
    simp [h.symm]
  | cons f rest ih =>
    rw [buildItemDict] at h
    cases hf : itemFieldStep d f with
    | error e => rw [hf] at h; exact absurd h (by simp)
    | ok d2 =>
      rw [hf] at h
      have hw := itemFieldStep_ok d d2 f hf
      rw [List.filterMap_cons]
      cases hfw : itemEntry f with
      | none =>
        rw [hfw] at hw
        simp only [applyWrite] at hw
        subst hw
        exact ih d2 h
      | some p =>
        rw [hfw] at hw
        simp only [applyWrite] at hw
        subst hw
        rw [List.foldl_cons]
        exact ih _ h

/-- A non-raising line-item step appends the item's dict when it is
non-empty and nothing otherwise. -/
theorem processLineItem_ok (acc acc2 : List Dict) (it : LineItem)
    (h : processLineItem acc it = Except.ok acc2) :
    acc2 = acc ++ ([itemDict it].filter (fun d => !d.isEmpty)) := by
  rw [processLineItem] at h
  cases hb : buildItemDict [] (it.lineItemExpenseFields.getD []) with
  | error e => rw [hb] at h; exact absurd h (by simp)
  | ok fields =>
    rw [hb] at h
    have hd : fields = itemDict it := by
      have := buildItemDict_ok (it.lineItemExpenseFields.getD []) [] fields hb
      rw [this]; rfl
    rw [hd] at h
    replace h : (if itemDict it = [] then Except.ok acc
        else Except.ok (acc ++ [itemDict it]) : Except String (List Dict)) = Except.ok acc2 := h
    by_cases he : itemDict it = []
    · rw [if_pos he] at h
      simp only [Except.ok.injEq] at h
      simp [h.symm, he, List.filter]
    · rw [if_neg he] at h
      simp only [Except.ok.injEq] at h
      have hne : (itemDict it).isEmpty = false := by
        cases hh : itemDict it with
        | nil => exact absurd hh he
        | cons a l => rfl
      simp [h.symm, List.filter, hne]

/-- A non-raising loop over the items of one group appends the items'
non-empty dicts in order. -/
theorem processLineItems_ok (items : List LineItem) (acc acc2 : List Dict)
    (h : processLineItems acc items = Except.ok acc2) :
    acc2 = acc ++ ((items.map itemDict).filter (fun d => !d.isEmpty)) := by
  induction items generalizing acc with
  | nil =>
    simp [processLineItems] at h
    simp [h.symm]
  | cons it rest ih =>
    rw [processLineItems] at h
    cases hi : processLineItem acc it with
    | error e => rw [hi] at h; exact absurd h (by simp)
    | ok accMid =>
      rw [hi] at h
      have h1 := processLineItem_ok acc accMid it hi
      have h2 := ih accMid h
      rw [h2, h1, List.map_cons, List.filter_cons]
      by_cases he : (itemDict it).isEmpty
      · simp [he, List.filter]
      · simp only [he, Bool.not_false, List.filter, List.append_assoc]
        simp [Bool.not_eq_true] at he
        simp [he]

/-- A non-raising loop over the groups appends, in order, the non-empty
dicts of the flattened items of all groups. -/
theorem processGroups_ok (gs : List LineItemGroup) (acc acc2 : List Dict)
    (h : processGroups acc gs = Except.ok acc2) :
    acc2 = acc ++
      (((gs.map (fun g => g.lineItems.getD [])).flatten.map itemDict).filter
        (fun d => !d.isEmpty)) := by
  induction gs generalizing acc with
  | nil =>
    simp [processGroups] at h
    simp [h.symm]
  | cons g rest ih =>
    rw [processGroups] at h
    cases hg : processLineItems acc (g.lineItems.getD []) with
    | error e => rw [hg] at h; exact absurd h (by simp)
    | ok accMid =>
      rw [hg] at h
      have h1 := processLineItems_ok (g.lineItems.getD []) acc accMid hg
      have h2 := ih accMid h
      rw [h2, h1, List.map_cons, List.flatten_cons, List.map_append, List.filter_append,
        List.append_assoc]

/-- A non-raising document step: summary writes fold into the first
component, the groups' non-empty item dicts append to the second. -/
theorem processDoc_ok (st st2 : Dict × List Dict) (d : ExpenseDocument)
    (h : processDoc st d = Except.ok st2) :
    st2.1 = (docWrites d).foldl insStep st.1 ∧
    st2.2 = st.2 ++ (((docItems d).map itemDict).filter (fun x => !x.isEmpty)) := by
  rw [processDoc] at h
  cases hs : processSummaryFields st.1 (d.summaryFields.getD []) with
  | error e => rw [hs] at h; exact absurd h (by simp)
  | ok rf =>
    rw [hs] at h
    cases hg : processGroups st.2 (d.lineItemGroups.getD []) with
    | error e => rw [hg] at h; exact absurd h (by simp)
    | ok li =>
      rw [hg] at h
      simp only [Except.ok.injEq] at h
      have h1 := processSummaryFields_ok (d.summaryFields.getD []) st.1 rf hs
      have h2 := processGroups_ok (d.lineItemGroups.getD []) st.2 li hg
      rw [← h, h1, h2]
      exact ⟨rfl, rfl⟩

/-- A non-raising document loop: all summary writes fold in processing
order, all documents' non-empty item dicts append in order. -/
theorem processDocs_ok (docs : List ExpenseDocument) (st st2 : Dict × List Dict)
    (h : processDocs st docs = Except.ok st2) :
    st2.1 = ((docs.map docWrites).flatten).foldl insStep st.1 ∧
    st2.2 = st.2 ++ ((((docs.map docItems).flatten).map itemDict).filter
      (fun x => !x.isEmpty)) := by
  induction docs generalizing st with
  | nil =>
    simp [processDocs] at h
    simp [h.symm]
  | cons d rest ih =>
    rw [processDocs] at h
    cases hd : processDoc st d with
    | error e => rw [hd] at h; exact absurd h (by simp)
    | ok stMid =>
      rw [hd] at h
      obtain ⟨h1, h2⟩ := processDoc_ok st stMid d hd
      obtain ⟨h3, h4⟩ := ih stMid h
      constructor
      · rw [h3, h1, List.map_cons, List.flatten_cons, List.foldl_append]
      · rw [h4, h2, List.map_cons, List.flatten_cons, List.map_append, List.filter_append,
          List.append_assoc]

/-- A non-raising extraction computes exactly the declarative
`raw_fields` dict and `line_items` list. -/
theorem extractExpense_ok (r : ExpenseResponse) (out : Dict × List Dict)
    (h : extractExpense r = Except.ok out) :
    out.1 = buildDict (summaryWrites r) ∧ out.2 = lineItemsSpec r := by
  have := processDocs_ok (r.expenseDocuments.getD []) ([], []) out h
  rw [summaryWrites, buildDict, lineItemsSpec, allItems]
  simpa using this

/-!  Totality under well-formedness: the extraction raises only when a
present `Type`/`ValueDetection` object lacks its `Text`. -/

/-- A well-formed summary field never raises. -/
theorem processSummaryField_total (rf : Dict) (f : ExpenseField)
    (hw : wfField f = true) : ∃ rf2, processSummaryField rf f = Except.ok rf2 := by
  obtain ⟨ft, vd⟩ := f
  cases ft with
  | none => exact ⟨rf, rfl⟩
  | some tb =>
    cases vd with
    | none => exact ⟨rf, rfl⟩
    | some vb =>
      obtain ⟨t⟩ := tb
      obtain ⟨v⟩ := vb
      simp only [wfField, Bool.and_eq_true, Option.isSome] at hw
      cases t with
      | none => simp at hw
      | some t =>
        cases v with
        | none => simp at hw
        | some v =>
          simp only [processSummaryField, getText]
          by_cases hc : normalizeKey t ≠ "" ∧ pyStripS v ≠ ""
          · exact ⟨_, by rw [if_pos hc]⟩
          · exact ⟨rf, by rw [if_neg hc]⟩

/-- A well-formed summary-field loop never raises. -/
theorem processSummaryFields_total (fs : List ExpenseField) (rf : Dict)
    (hw : fs.all wfField = true) :
    ∃ out, processSummaryFields rf fs = Except.ok out := by
  induction fs generalizing rf with
  | nil => exact ⟨rf, rfl⟩
  | cons f rest ih =>
    simp only [List.all_cons, Bool.and_eq_true] at hw
    obtain ⟨rf2, h2⟩ := processSummaryField_total rf f hw.1
    obtain ⟨out, hout⟩ := ih rf2 hw.2
    exact ⟨out, by rw [processSummaryFields, h2]; exact hout⟩

/-- A well-formed line-item field step never raises. -/
theorem itemFieldStep_total (d : Dict) (f : ExpenseField)
    (hw : wfField f = true) : ∃ d2, itemFieldStep d f = Except.ok d2 := by
  obtain ⟨ft, vd⟩ := f
  cases ft with
  | none => exact ⟨d, rfl⟩
  | some tb =>
    cases vd with
    | none => exact ⟨d, rfl⟩
    | some vb =>
      obtain ⟨t⟩ := tb
      obtain ⟨v⟩ := vb
      simp only [wfField, Bool.and_eq_true, Option.isSome] at hw
      cases t with
      | none => simp at hw
      | some t =>
        cases v with
        | none => simp at hw
        | some v => exact ⟨_, rfl⟩

/-- A well-formed dict comprehension never raises. -/
theorem buildItemDict_total (fs : List ExpenseField) (d : Dict)
    (hw : fs.all wfField = true) : ∃ out, buildItemDict d fs = Except.ok out := by
  induction fs generalizing d with
  | nil => exact ⟨d, rfl⟩
  | cons f rest ih =>
    simp only [List.all_cons, Bool.and_eq_true] at hw
    obtain ⟨d2, h2⟩ := itemFieldStep_total d f hw.1
    obtain ⟨out, hout⟩ := ih d2 hw.2
    exact ⟨out, by rw [buildItemDict, h2]; exact hout⟩

/-- A well-formed line item never raises. -/
theorem processLineItem_total (acc : List Dict) (it : LineItem)
    (hw : wfItem it = true) : ∃ acc2, processLineItem acc it = Except.ok acc2 := by
  obtain ⟨fields, hf⟩ := buildItemDict_total (it.lineItemExpenseFields.getD []) [] hw
  by_cases he : fields = []
  · exact ⟨acc, by rw [processLineItem, hf]; simp [he]⟩
  · exact ⟨acc ++ [fields], by rw [processLineItem, hf]; simp [he]⟩

/-- A well-formed item loop never raises. -/
theorem processLineItems_total (items : List LineItem) (acc : List Dict)
    (hw : items.all wfItem = true) :
    ∃ out, processLineItems acc items = Except.ok out := by
  induction items generalizing acc with
  | nil => exact ⟨acc, rfl⟩
  | cons it rest ih =>
    simp only [List.all_cons, Bool.and_eq_true] at hw
    obtain ⟨acc2, h2⟩ := processLineItem_total acc it hw.1
    obtain ⟨out, hout⟩ := ih acc2 hw.2
    exact ⟨out, by rw [processLineItems, h2]; exact hout⟩

/-- A well-formed group loop never raises. -/
theorem processGroups_total (gs : List LineItemGroup) (acc : List Dict)
    (hw : gs.all wfGroup = true) :
    ∃ out, processGroups acc gs = Except.ok out := by
  induction gs generalizing acc with
  | nil => exact ⟨acc, rfl⟩
  | cons g rest ih =>
    simp only [List.all_cons, Bool.and_eq_true] at hw
    obtain ⟨acc2, h2⟩ := processLineItems_total (g.lineItems.getD []) acc hw.1
    obtain ⟨out, hout⟩ := ih acc2 hw.2
    exact ⟨out, by rw [processGroups, h2]; exact hout⟩

/-- A well-formed document never raises. -/
theorem processDoc_total (st : Dict × List Dict) (d : ExpenseDocument)
    (hw : wfDoc d = true) : ∃ st2, processDoc st d = Except.ok st2 := by
  simp only [wfDoc, Bool.and_eq_true] at hw
  obtain ⟨rf, h1⟩ := processSummaryFields_total (d.summaryFields.getD []) st.1 hw.1
  obtain ⟨li, h2⟩ := processGroups_total (d.lineItemGroups.getD []) st.2 hw.2
  exact ⟨(rf, li), by simp [processDoc, h1, h2]⟩

/-- A well-formed document loop never raises. -/
theorem processDocs_total (docs : List ExpenseDocument) (st : Dict × List Dict)
    (hw : docs.all wfDoc = true) :
    ∃ out, processDocs st docs = Except.ok out := by
  induction docs generalizing st with
  | nil => exact ⟨st, rfl⟩
  | cons d rest ih =>
    simp only [List.all_cons, Bool.and_eq_true] at hw
    obtain ⟨st2, h2⟩ := processDoc_total st d hw.1
    obtain ⟨out, hout⟩ := ih st2 hw.2
    exact ⟨out, by rw [processDocs, h2]; exact hout⟩

/-!  OCR loop characterization. -/

/-- The block loop appends the `Text` (default empty) of the `LINE`
blocks, in block order. -/
theorem collectLines_spec (bs : List OcrBlock) (acc : List String) :
    collectLines acc bs = acc ++
      ((bs.filter (fun b => decide (b.blockType = some "LINE"))).map
        (fun b => b.text.getD "")) := by
  induction bs generalizing acc with
  | nil => simp [collectLines]
  | cons b rest ih =>
    rw [collectLines, ih]
    by_cases hb : b.blockType = some "LINE"
    · simp [hb, List.filter_cons]
    · simp [hb, List.filter_cons]

/-- The page loop appends each page's `LINE` texts in page order. -/
theorem ocrPages_spec (rs : List OcrResponse) (acc : List String) :
    ocrPages acc rs = acc ++
      (rs.map (fun resp =>
        ((resp.blocks.getD []).filter (fun b => decide (b.blockType = some "LINE"))).map
          (fun b => b.text.getD ""))).flatten := by
  induction rs generalizing acc with
  | nil => simp [ocrPages]
  | cons resp rest ih =>
    rw [ocrPages, ih, collectLines_spec]
    simp [List.append_assoc]

/-- Characterization of the summary-field write. -/
theorem fieldWrite_eq_some (f : ExpenseField) (p : String × String) :
    fieldWrite f = some p ↔
      ∃ t v, f.fieldType = some ⟨some t⟩ ∧ f.valueDetection = some ⟨some v⟩ ∧
        normalizeKey t ≠ "" ∧ pyStripS v ≠ "" ∧ p = (normalizeKey t, pyStripS v) := by
  obtain ⟨ft, vd⟩ := f
  cases ft with
  | none => simp [fieldWrite]
  | some tb =>
    obtain ⟨t⟩ := tb
    cases t with
    | none =>
      cases vd with
      | none => simp [fieldWrite]
      | some vb => obtain ⟨v⟩ := vb; cases v <;> simp [fieldWrite]
    | some t =>
      cases vd with
      | none => simp [fieldWrite]
      | some vb =>
        obtain ⟨v⟩ := vb
        cases v with
        | none => simp [fieldWrite]
        | some v =>
          by_cases hc : normalizeKey t ≠ "" ∧ pyStripS v ≠ ""
          · simp [fieldWrite, hc.1, hc.2]
            constructor
            · intro hh
              exact hh.symm
            · intro hh
              exact hh.symm
          · rw [show fieldWrite ⟨some ⟨some t⟩, some ⟨some v⟩⟩ = none from by
              simp only [fieldWrite, if_neg hc]]
            simp only [reduceCtorEq, false_iff]
            rintro ⟨t2, v2, ht2, hv2, hn1, hn2, -⟩
            obtain rfl : t = t2 := by simpa using ht2
            obtain rfl : v = v2 := by simpa using hv2
            exact hc ⟨hn1, hn2⟩

/-!  Claim theorems. -/

/-- Claim C1, corrected: the 200-response of `process_receipt` is a
mapping whose keys are exactly `raw_fields` and `line_items`; the
canonical schema fields are not present. -/
theorem c1_output_keys (r : ExpenseResponse) (l : List (String × JVal))
    (h : receiptContent r = Except.ok l) :
    l.map Prod.fst = ["raw_fields", "line_items"] := by
  rw [receiptContent] at h
  cases he : extractExpense r with
  | error e => rw [he] at h; exact absurd h (by simp)
  | ok st =>
    rw [he] at h
    simp only [Except.ok.injEq] at h
    rw [← h]
    rfl

/-- Witness for C1 at the empty response. -/
theorem c1_output_keys_witness :
    ([("raw_fields", dictJ []), ("line_items", JVal.jarr [])].map Prod.fst) =
      ["raw_fields", "line_items"] :=
  c1_output_keys ⟨none⟩ [("raw_fields", dictJ []), ("line_items", JVal.jarr [])] rfl

/-- Counterexample to claim C1 as stated: for the empty response, the
output contains no `vendor_name` key (nor any other canonical field). -/
theorem c1_counterexample :
    receiptContent ⟨none⟩ = Except.ok [("raw_fields", JVal.jobj []), ("line_items", JVal.jarr [])] ∧
      ¬ ("vendor_name" ∈ ([("raw_fields", JVal.jobj []), ("line_items", JVal.jarr [])].map Prod.fst)) :=
  ⟨rfl, by decide⟩

/-- Claim C2: on a non-raising run, `line_items` is exactly the ordered
flattening of all groups' items, each mapped to its lowercased-label
dict, with items producing an empty dict dropped. -/
theorem c2_line_items (r : ExpenseResponse) (out : Dict × List Dict)
    (h : extractExpense r = Except.ok out) : out.2 = lineItemsSpec r :=
  (extractExpense_ok r out h).2

/-- Witness for C2: two groups are flattened and the empty item is
dropped. -/
theorem c2_line_items_witness :
    (([], [[("item", "Apple")], [("item", "Pear")]]) : Dict × List Dict).2 =
      lineItemsSpec rTwoGroups :=
  c2_line_items rTwoGroups ([], [[("item", "Apple")], [("item", "Pear")]]) rfl

/-- Claim C3, corrected: on every well-formed response (each present
`Type`/`ValueDetection` object carries its `Text`), the extraction
succeeds, recovering missing lists and fields lacking
`Type`/`ValueDetection` by omission. -/
theorem c3_wellformed_ok (r : ExpenseResponse) (hw : wfResponse r = true) :
    extractExpense r = Except.ok (buildDict (summaryWrites r), lineItemsSpec r) := by
  obtain ⟨out, hout⟩ := processDocs_total (r.expenseDocuments.getD []) ([], []) hw
  have heq : extractExpense r = Except.ok out := hout
  obtain ⟨rf, li⟩ := out
  obtain ⟨h1, h2⟩ := extractExpense_ok r (rf, li) heq
  dsimp only at h1 h2
  rw [heq, h1, h2]

/-- Witness for C3: a field lacking `Type` is skipped, the rest is
extracted. -/
theorem c3_wellformed_ok_witness :
    extractExpense rSkipsField =
      Except.ok (buildDict (summaryWrites rSkipsField), lineItemsSpec rSkipsField) :=
  c3_wellformed_ok rSkipsField rfl

/-- Counterexample to claim C3 as stated: a summary field whose `Type`
object lacks `Text` makes the extraction raise instead of degrading to
partial output. -/
theorem c3_counterexample : extractExpense rMissingText = Except.error "KeyError" := rfl

/-- Claim C4, corrected: the key recorded for a summary field is the
label text stripped of leading/trailing whitespace, then uppercased,
with spaces replaced by underscores. -/
theorem c4_normalized_key (rf rf2 : Dict) (f : ExpenseField) (t v : String)
    (ht : f.fieldType = some ⟨some t⟩) (hv : f.valueDetection = some ⟨some v⟩)
    (h : processSummaryField rf f = Except.ok rf2) :
    rf2 = if normalizeKey t ≠ "" ∧ pyStripS v ≠ ""
      then dictInsert (normalizeKey t) (pyStripS v) rf else rf := by
  have hb := processSummaryField_ok rf rf2 f h
  obtain ⟨ft, vd⟩ := f
  dsimp only at ht hv
  subst ht
  subst hv
  rw [hb]
  by_cases hc : normalizeKey t ≠ "" ∧ pyStripS v ≠ ""
  · simp only [fieldWrite, if_pos hc, applyWrite]
  · simp only [fieldWrite, if_neg hc, applyWrite]

/-- Witness for C4 at a label with surrounding spaces. -/
theorem c4_normalized_key_witness :
    ([("VENDOR_NAME", "ACME")] : Dict) =
      if normalizeKey " Vendor Name " ≠ "" ∧ pyStripS "ACME" ≠ ""
      then dictInsert (normalizeKey " Vendor Name ") (pyStripS "ACME") [] else [] :=
  c4_normalized_key [] [("VENDOR_NAME", "ACME")] fieldSpacedLabel " Vendor Name " "ACME"
    rfl rfl rfl

/-- Counterexample to claim C4 as stated: with label
`" Vendor Name "` the recorded key is `VENDOR_NAME`, not the claim's
uppercased spaces-to-underscores text `_VENDOR_NAME_`. -/
theorem c4_counterexample :
    extractExpense rSpacedLabel = Except.ok ([("VENDOR_NAME", "ACME")], []) ∧
      underscoreSpaces (pyUpperS " Vendor Name ") = "_VENDOR_NAME_" ∧
      dictGet [("VENDOR_NAME", "ACME")] "_VENDOR_NAME_" = none :=
  ⟨rfl, rfl, rfl⟩

/-- Claim C5: on a non-raising run, looking up any key in `raw_fields`
returns the value of the last write with that normalized key, in input
processing order. -/
theorem c5_last_write_wins (r : ExpenseResponse) (out : Dict × List Dict)
    (h : extractExpense r = Except.ok out) (k : String) :
    dictGet out.1 k = lastWrite (summaryWrites r) k := by
  rw [(extractExpense_ok r out h).1, dictGet_buildDict]

/-- Witness for C5: two fields normalizing to `TOTAL`; the second value
is recorded. -/
theorem c5_last_write_wins_witness :
    dictGet (([("TOTAL", "2.00")], []) : Dict × List Dict).1 "TOTAL" =
      lastWrite (summaryWrites rDupKeys) "TOTAL" :=
  c5_last_write_wins rDupKeys ([("TOTAL", "2.00")], []) rfl "TOTAL"

/-- Claim C6: the extraction is a pure function of the response: equal
inputs yield identical `raw_fields`/`line_items` and identical response
content. -/
theorem c6_deterministic (r1 r2 : ExpenseResponse) (h : r1 = r2) :
    extractExpense r1 = extractExpense r2 ∧ receiptContent r1 = receiptContent r2 := by
  subst h
  exact ⟨rfl, rfl⟩

/-- Witness for C6. -/
theorem c6_deterministic_witness :
    extractExpense rDupKeys = extractExpense rDupKeys ∧
      receiptContent rDupKeys = receiptContent rDupKeys :=
  c6_deterministic rDupKeys rDupKeys rfl

/-- Claim C7: `parse_currency` on the spec's three examples. -/
theorem c7_parse_currency :
    parse_currency "£1,234.50" = some (1234.50 : Rat) ∧
      parse_currency "12.5" = none ∧
      parse_currency "no numbers" = none := by
  refine ⟨?_, by decide, by decide⟩
  have h : findAmount (stripCurrency ("£1,234.50").data) = some (1234, 50) := by decide
  rw [parse_currency, h]
  norm_num

/-- Claim C8: the VAT-number scan on the spec's examples, first match
across fields winning and the `GB` prefix case-sensitive. -/
theorem c8_vat_number :
    scanVatNumber ["VAT Reg: GB123456789"] = some "GB123456789" ∧
      scanVatNumber ["GB12345678"] = none ∧
      scanVatNumber ["note", "GB111111111", "GB222222222"] = some "GB111111111" ∧
      scanVatNumber ["gb123456789"] = none := by
  refine ⟨by decide, by decide, by decide, by decide⟩

/-- Claim C9: on a non-raising run, a key is present in `raw_fields`
exactly when some summary field has both `Type` and `ValueDetection`,
its normalized label equals the key and is non-empty, and its stripped
value is non-empty. -/
theorem c9_raw_field_membership (r : ExpenseResponse) (out : Dict × List Dict)
    (h : extractExpense r = Except.ok out) (k : String) :
    (∃ v, dictGet out.1 k = some v) ↔
      ∃ d, d ∈ r.expenseDocuments.getD [] ∧ ∃ f, f ∈ d.summaryFields.getD [] ∧
        ∃ t v, f.fieldType = some ⟨some t⟩ ∧ f.valueDetection = some ⟨some v⟩ ∧
          normalizeKey t = k ∧ normalizeKey t ≠ "" ∧ pyStripS v ≠ "" := by
  have h1 : dictGet out.1 k = lastWrite (summaryWrites r) k := by
    rw [(extractExpense_ok r out h).1, dictGet_buildDict]
  rw [h1, lastWrite_isSome]
  constructor
  · rintro ⟨p, hp, hk⟩
    rw [summaryWrites, List.mem_flatten] at hp
    obtain ⟨ws, hws, hpw⟩ := hp
    rw [List.mem_map] at hws
    obtain ⟨d, hd, rfl⟩ := hws
    rw [docWrites, List.mem_filterMap] at hpw
    obtain ⟨f, hf, hfw⟩ := hpw
    obtain ⟨t, v, ht, hv, hn1, hn2, hpv⟩ := (fieldWrite_eq_some f p).mp hfw
    refine ⟨d, hd, f, hf, t, v, ht, hv, ?_, hn1, hn2⟩
    rw [hpv] at hk
    exact hk
  · rintro ⟨d, hd, f, hf, t, v, ht, hv, hk, hn1, hn2⟩
    refine ⟨(normalizeKey t, pyStripS v), ?_, hk⟩
    rw [summaryWrites, List.mem_flatten]
    refine ⟨docWrites d, List.mem_map.mpr ⟨d, hd, rfl⟩, ?_⟩
    rw [docWrites, List.mem_filterMap]
    exact ⟨f, hf, (fieldWrite_eq_some f _).mpr ⟨t, v, ht, hv, hn1, hn2, rfl⟩⟩

/-- Witness for C9 at the duplicate-key response and key `TOTAL`. -/
theorem c9_raw_field_membership_witness :
    (∃ v, dictGet (([("TOTAL", "2.00")], []) : Dict × List Dict).1 "TOTAL" = some v) ↔
      ∃ d, d ∈ rDupKeys.expenseDocuments.getD [] ∧ ∃ f, f ∈ d.summaryFields.getD [] ∧
        ∃ t v, f.fieldType = some ⟨some t⟩ ∧ f.valueDetection = some ⟨some v⟩ ∧
          normalizeKey t = "TOTAL" ∧ normalizeKey t ≠ "" ∧ pyStripS v ≠ "" :=
  c9_raw_field_membership rDupKeys ([("TOTAL", "2.00")], []) rfl "TOTAL"

/-- Claim C10: `text_lines` is exactly the `Text` (default empty) of the
`LINE` blocks, in block order within each page and page order across
pages. -/
theorem c10_ocr_line_blocks (rs : List OcrResponse) :
    ocrTextLines rs =
      (rs.map (fun resp =>
        ((resp.blocks.getD []).filter (fun b => decide (b.blockType = some "LINE"))).map
          (fun b => b.text.getD ""))).flatten := by
  rw [ocrTextLines, ocrPages_spec]
  simp
